import Mathlib

/-!
# Dhruva — Fusion & Distribution Engine: formal embedding

Shallow embedding of the Dhruva repository (frontend TypeScript under
`dhruva/frontend/src`, plus the backend fusion pipeline modelled from the
design spec where its Python source is not part of this tree).

Part 1: the client-side data model (`types/events.ts`) and the WebSocket
message handler of `hooks/useWebSocket.ts`.
-/

namespace Dhruva

/-- Canonical event, mirroring `OsintEvent` in `frontend/src/types/events.ts`.
Coordinates are embedded as rationals; `metadata` as an open key/value list. -/
structure OsintEvent where
  id : String
  type : String
  latitude : Rat
  longitude : Rat
  severity : Nat
  timestamp : String
  source : String
  title : String
  description : String
  metadata : List (String × String)
deriving DecidableEq, Repr

/-- Risk snapshot, mirroring `RiskLevel` in `frontend/src/types/events.ts`. -/
structure RiskLevel where
  level : Nat
  label : String
  color : String
  event_counts : List (String × Nat)
  score : Option Rat
  updated_at : String
deriving DecidableEq, Repr

/-- The three actions of the push channel, mirroring the union type
`'event_batch' | 'risk_update' | 'initial_state'` in `types/events.ts`. -/
inductive WsAction where
  | event_batch
  | risk_update
  | initial_state
deriving DecidableEq, Repr

/-- Mirrors `WebSocketMessage` in `frontend/src/types/events.ts`:
optional fields become `Option`. -/
structure WebSocketMessage where
  action : WsAction
  data : List OsintEvent
  risk : Option RiskLevel
  layer : Option String
  layers : Option (List String)
deriving DecidableEq, Repr

/-- Client-side state held by the `useWebSocket` hook: the `events` record
(a JS object keyed by layer name: absent key = `none`) and the `risk`
snapshot. -/
structure ClientState where
  events : String → Option (List OsintEvent)
  risk : Option RiskLevel

/-- The grouping loop of the `initial_state` branch in `useWebSocket.ts`
(lines 45–49): a fresh record whose key `t` holds the events of `data`
of type `t`, in arrival order; keys are only created for types present. -/
def groupByType (d : List OsintEvent) : String → Option (List OsintEvent) :=
  fun t =>
    let g := d.filter (fun e => e.type == t)
    if g.isEmpty then none else some g

/-- The `ws.onmessage` handler of `useWebSocket.ts` (lines 39–64), as a
state transformer.  `initial_state` replaces the whole record with the
grouped data and sets `risk` when carried; `event_batch` requires a truthy
(present, non-empty) `layer` and overwrites exactly that key; any other
action (in particular `risk_update`) falls through both `if`s and leaves
the state unchanged. -/
def processMessage (s : ClientState) (m : WebSocketMessage) : ClientState :=
  match m.action with
  | .initial_state =>
      { events := groupByType m.data
        risk := match m.risk with
                | some r => some r
                | none => s.risk }
  | .event_batch =>
      match m.layer with
      | some l =>
          if l = "" then s
          else
            { events := fun t => if t = l then some m.data else s.events t
              risk := match m.risk with
                      | some r => some r
                      | none => s.risk }
      | none => s
  | .risk_update => s

/-- Reading a layer out of the client record, `[]` for an absent key. -/
def layerOf (s : ClientState) (t : String) : List OsintEvent :=
  (s.events t).getD []

/-- A concrete event used by witnesses. -/
def sampleEvent : OsintEvent :=
  { id := "usgs:ev1", type := "earthquake", latitude := mkRat 34 10, longitude := mkRat (-118) 10
    severity := 3, timestamp := "2024-01-01T00:00:00Z", source := "USGS"
    title := "M 4.5", description := "test quake", metadata := [] }

/-- A second concrete event (different layer) used by witnesses. -/
def sampleEvent2 : OsintEvent :=
  { id := "osint:cy1", type := "cyber", latitude := mkRat 51 1, longitude := mkRat 7 2
    severity := 4, timestamp := "2024-01-01T01:00:00Z", source := "OSINT-TI"
    title := "DDoS", description := "test attack", metadata := [] }

/-- A concrete risk snapshot used by witnesses. -/
def sampleRisk : RiskLevel :=
  { level := 2, label := "GUARDED", color := "#44ccff"
    event_counts := [("earthquake", 1)], score := some (mkRat 7 2)
    updated_at := "2024-01-01T00:00:05Z" }

/-- A concrete client state with one populated layer. -/
def sampleState : ClientState :=
  { events := fun t => if t = "earthquake" then some [sampleEvent] else none
    risk := none }

/-! ## Generic partition lemma

Grouping a list by a key function and summing the group sizes over the
distinct keys gives back the length of the list.  Used for the
`initial_state` grouping (C3) and the spatial binning (C5). -/

theorem sum_filter_lengths {α κ : Type} [DecidableEq κ] (f : α → κ) (l : List α) :
    (((l.map f).dedup).map (fun k => (l.filter (fun a => f a == k)).length)).sum
      = l.length := by
  have h := List.sum_map_count_dedup_eq_length (l.map f)
  rw [List.length_map] at h
  rw [← h]
  apply congrArg
  apply List.map_congr_left
  intro k _
  rw [List.count_eq_countP, List.countP_map, List.countP_eq_length_filter]
  rfl

/-! ## Claims C1–C3: the WebSocket message handler -/

/-- **C1.** Processing an `event_batch` message that names a (non-empty)
layer `L` and carries data `d` replaces the stored collection for layer `L`
with exactly `d`, and leaves the stored collection of every other layer
unchanged. -/
theorem event_batch_replaces_layer (s : ClientState) (m : WebSocketMessage)
    (L : String) (ha : m.action = WsAction.event_batch)
    (hl : m.layer = some L) (hne : L ≠ "") :
    (processMessage s m).events L = some m.data ∧
    ∀ t, t ≠ L → (processMessage s m).events t = s.events t := by
  unfold processMessage
  rw [ha, hl]
  simp only [hne, if_false]
  exact ⟨by simp, fun t ht => by simp [ht]⟩

/-- A concrete `event_batch` message, for the C1 witness. -/
def batchMsg : WebSocketMessage :=
  { action := WsAction.event_batch, data := [sampleEvent2]
    risk := some sampleRisk, layer := some "cyber", layers := none }

/-- Witness for C1 at a concrete state and message: the `cyber` layer is
replaced, the `earthquake` layer is untouched. -/
theorem event_batch_replaces_layer_witness :
    (processMessage sampleState batchMsg).events "cyber" = some batchMsg.data ∧
    (processMessage sampleState batchMsg).events "earthquake"
      = sampleState.events "earthquake" :=
  ⟨(event_batch_replaces_layer sampleState batchMsg "cyber" rfl rfl
      (by decide)).1,
   (event_batch_replaces_layer sampleState batchMsg "cyber" rfl rfl
      (by decide)).2 "earthquake" (by decide)⟩

/-- A concrete `risk_update` message carrying a risk snapshot, for C2. -/
def riskUpdateMsg : WebSocketMessage :=
  { action := WsAction.risk_update, data := []
    risk := some sampleRisk, layer := none, layers := none }

/-- **C2, counterexample.** The handler in `useWebSocket.ts` has no branch
for `risk_update`: here is a message with action `risk_update` carrying the
snapshot `sampleRisk`, processed from a state whose risk is `none`; the
stored risk afterwards is still not `sampleRisk`. -/
theorem risk_update_not_applied_cex :
    riskUpdateMsg.action = WsAction.risk_update ∧
    riskUpdateMsg.risk = some sampleRisk ∧
    ¬ (processMessage sampleState riskUpdateMsg).risk = some sampleRisk := by
  refine ⟨rfl, rfl, ?_⟩
  decide

/-- **C2, amended.** Processing a `risk_update` message leaves the client
state (events and risk alike) entirely unchanged: the handler only acts on
`initial_state` and `event_batch`, and `risk_update`, though declared in
the message type, is ignored. -/
theorem risk_update_leaves_state (s : ClientState) (m : WebSocketMessage)
    (ha : m.action = WsAction.risk_update) :
    processMessage s m = s := by
  unfold processMessage
  rw [ha]

/-- Witness for the amended C2 at a concrete state and message. -/
theorem risk_update_leaves_state_witness :
    processMessage sampleState riskUpdateMsg = sampleState :=
  risk_update_leaves_state sampleState riskUpdateMsg rfl

/-- Reading a grouped record at `t` gives exactly the filter by type `t`. -/
theorem layerOf_groupByType (d : List OsintEvent) (t : String) :
    (groupByType d t).getD [] = d.filter (fun e => e.type == t) := by
  unfold groupByType
  by_cases h : (d.filter (fun e => e.type == t)).isEmpty
  · simp [h, List.isEmpty_iff.mp h]
  · simp [h]

/-- **C3.** Processing an `initial_state` message carrying data `d` makes
the event record exactly the grouping of `d` by type: the stored entry for
`t` is the subsequence of `d` of type `t` in order (and the key is absent
when that subsequence is empty, so any prior state is discarded); every
event of `d` is in the group of its own type and in no other group; the
group sizes over the distinct types sum to `d.length`; and a carried risk
snapshot becomes the stored risk. -/
theorem initial_state_groups (s : ClientState) (m : WebSocketMessage)
    (ha : m.action = WsAction.initial_state) :
    (∀ t, (processMessage s m).events t =
        (if (m.data.filter (fun e => e.type == t)).isEmpty then none
         else some (m.data.filter (fun e => e.type == t)))) ∧
    (∀ e ∈ m.data, e ∈ layerOf (processMessage s m) e.type) ∧
    (∀ t, ∀ e ∈ layerOf (processMessage s m) t, e.type = t) ∧
    (((m.data.map (fun e => e.type)).dedup).map
        (fun t => (layerOf (processMessage s m) t).length)).sum
      = m.data.length ∧
    (∀ r, m.risk = some r → (processMessage s m).risk = some r) := by
  have hev : (processMessage s m).events = groupByType m.data := by
    unfold processMessage
    rw [ha]
  have hlay : ∀ t, layerOf (processMessage s m) t
      = m.data.filter (fun e => e.type == t) := by
    intro t
    unfold layerOf
    rw [hev]
    exact layerOf_groupByType m.data t
  refine ⟨fun t => by rw [hev]; rfl, ?_, ?_, ?_, ?_⟩
  · intro e he
    rw [hlay]
    exact List.mem_filter.mpr ⟨he, by simp⟩
  · intro t e he
    rw [hlay] at he
    have := (List.mem_filter.mp he).2
    simpa using this
  · have := sum_filter_lengths (fun e : OsintEvent => e.type) m.data
    rw [← this]
    apply congrArg
    apply List.map_congr_left
    intro t _
    rw [hlay]
  · intro r hr
    unfold processMessage
    rw [ha]
    simp [hr]

/-- A concrete `initial_state` message, for the C3 witness. -/
def initMsg : WebSocketMessage :=
  { action := WsAction.initial_state
    data := [sampleEvent, sampleEvent2, sampleEvent]
    risk := some sampleRisk, layer := none, layers := none }

/-- Witness for C3 at a concrete message: the grouped record, membership,
the partition count and the risk update, all evaluated. -/
theorem initial_state_groups_witness :
    ((processMessage sampleState initMsg).events "earthquake"
        = some [sampleEvent, sampleEvent] ∧
      (processMessage sampleState initMsg).events "cyber"
        = some [sampleEvent2] ∧
      (processMessage sampleState initMsg).events "marine" = none) ∧
    sampleEvent ∈ layerOf (processMessage sampleState initMsg) "earthquake" ∧
    (((initMsg.data.map (fun e => e.type)).dedup).map
        (fun t => (layerOf (processMessage sampleState initMsg) t).length)).sum
      = initMsg.data.length ∧
    (processMessage sampleState initMsg).risk = some sampleRisk := by
  have h := initial_state_groups sampleState initMsg rfl
  refine ⟨⟨?_, ?_, ?_⟩, ?_, h.2.2.2.1, h.2.2.2.2 sampleRisk rfl⟩
  · rw [h.1 "earthquake"]; decide
  · rw [h.1 "cyber"]; decide
  · rw [h.1 "marine"]; decide
  · exact h.2.1 sampleEvent (by decide)

/-! ## Claim C9: the two `flatEvents` computations of `DhruvaGlobe`

`components/Globe/DhruvaGlobe.tsx` (lines 232–240) concatenates the
enabled layers' lists in `Object.entries` order; the `DhruvaGlobe` version
in `src/unnamed/part_003` (lines 290–309) walks the same entries but skips
any event whose id was already seen.  The events record is embedded as an
association list in `Object.entries` order. -/

/-- The plain-concatenation `flatEvents` of
`src/dhruva/frontend/src/components/Globe/DhruvaGlobe.tsx`. -/
def flatEventsConcat (entries : List (String × List OsintEvent))
    (enabled : List String) : List OsintEvent :=
  entries.foldl (fun acc p => if p.1 ∈ enabled then acc ++ p.2 else acc) []

/-- The inner loop of the deduplicating `flatEvents` of
`src/unnamed/part_003`: one layer's events folded through the
`(seenIds, result)` state. -/
def addLayerDedup (st : List String × List OsintEvent)
    (evs : List OsintEvent) : List String × List OsintEvent :=
  evs.foldl
    (fun st e => if e.id ∈ st.1 then st else (e.id :: st.1, st.2 ++ [e])) st

/-- The id-deduplicating `flatEvents` of `src/unnamed/part_003`. -/
def flatEventsDedup (entries : List (String × List OsintEvent))
    (enabled : List String) : List OsintEvent :=
  (entries.foldl
    (fun st p => if p.1 ∈ enabled then addLayerDedup st p.2 else st)
    ([], [])).2

/-- Left fold of the concatenation loop, accumulator pulled out. -/
theorem flatEventsConcat_acc (entries : List (String × List OsintEvent))
    (enabled : List String) (acc : List OsintEvent) :
    entries.foldl (fun a p => if p.1 ∈ enabled then a ++ p.2 else a) acc
      = acc ++ flatEventsConcat entries enabled := by
  unfold flatEventsConcat
  induction entries generalizing acc with
  | nil => simp
  | cons p rest ih =>
    simp only [List.foldl_cons]
    by_cases h : p.1 ∈ enabled
    · rw [if_pos h, if_pos h, ih (acc ++ p.2)]
      simp only [List.nil_append]
      rw [ih p.2, List.append_assoc]
    · rw [if_neg h, if_neg h, ih acc]

/-- Unfolding one entry of the concatenation. -/
theorem flatEventsConcat_cons (p : String × List OsintEvent)
    (rest : List (String × List OsintEvent)) (enabled : List String) :
    flatEventsConcat (p :: rest) enabled
      = (if p.1 ∈ enabled then p.2 else []) ++ flatEventsConcat rest enabled := by
  show List.foldl _ _ (p :: rest) = _
  rw [List.foldl_cons]
  by_cases h : p.1 ∈ enabled
  · rw [if_pos h, if_pos h, flatEventsConcat_acc]
    simp
  · rw [if_neg h, if_neg h]
    simp [flatEventsConcat]

/-- One deduplicating layer pass, when none of the layer's ids were seen
yet and the layer itself has no duplicate ids: every event is appended,
and the seen set grows by exactly the layer's ids. -/
theorem addLayerDedup_fresh (evs : List OsintEvent) :
    ∀ st : List String × List OsintEvent,
    (∀ e ∈ evs, e.id ∉ st.1) → (evs.map (fun e => e.id)).Nodup →
    (addLayerDedup st evs).2 = st.2 ++ evs ∧
    (∀ x, x ∈ (addLayerDedup st evs).1
      ↔ x ∈ st.1 ∨ x ∈ evs.map (fun e => e.id)) := by
  induction evs with
  | nil => intro st _ _; simp [addLayerDedup]
  | cons e rest ih =>
    intro st h1 h2
    have hid : e.id ∉ st.1 := h1 e (List.mem_cons_self e rest)
    have hstep : addLayerDedup st (e :: rest)
        = addLayerDedup (e.id :: st.1, st.2 ++ [e]) rest := by
      unfold addLayerDedup
      rw [List.foldl_cons]
      simp [hid]
    rw [hstep]
    have h2c : (e.id :: rest.map (fun e => e.id)).Nodup := by simpa using h2
    have hhd : e.id ∉ rest.map (fun e => e.id) := (List.nodup_cons.mp h2c).1
    have h2' : (rest.map (fun e => e.id)).Nodup := (List.nodup_cons.mp h2c).2
    have h1' : ∀ e' ∈ rest, e'.id ∉ (e.id :: st.1, st.2 ++ [e]).1 := by
      intro e' he'
      simp only [List.mem_cons]
      push_neg
      refine ⟨?_, h1 e' (List.mem_cons_of_mem e he')⟩
      intro hcontra
      exact hhd (hcontra ▸ List.mem_map_of_mem (fun e => e.id) he')
    obtain ⟨ha, hb⟩ := ih (e.id :: st.1, st.2 ++ [e]) h1' h2'
    constructor
    · rw [ha]; simp
    · intro x
      rw [hb x]
      simp only [List.map_cons, List.mem_cons]
      tauto

/-- The full deduplicating fold over the entries, under globally fresh and
duplicate-free ids: it appends exactly the plain concatenation. -/
theorem flatEventsDedup_fold (enabled : List String) :
    ∀ (entries : List (String × List OsintEvent))
      (st : List String × List OsintEvent),
    (∀ x ∈ (flatEventsConcat entries enabled).map (fun e => e.id), x ∉ st.1) →
    ((flatEventsConcat entries enabled).map (fun e => e.id)).Nodup →
    (entries.foldl
        (fun st p => if p.1 ∈ enabled then addLayerDedup st p.2 else st)
        st).2
      = st.2 ++ flatEventsConcat entries enabled ∧
    (∀ x, x ∈ (entries.foldl
        (fun st p => if p.1 ∈ enabled then addLayerDedup st p.2 else st)
        st).1
      ↔ x ∈ st.1 ∨ x ∈ (flatEventsConcat entries enabled).map (fun e => e.id)) := by
  intro entries
  induction entries with
  | nil =>
    intro st _ _
    simp [flatEventsConcat]
  | cons p rest ih =>
    intro st h1 h2
    rw [flatEventsConcat_cons] at h1 h2 ⊢
    by_cases hp : p.1 ∈ enabled
    · rw [if_pos hp] at h1 h2 ⊢
      rw [List.map_append, List.nodup_append] at h2
      obtain ⟨hn1, hn2, hdisj⟩ := h2
      have h1a : ∀ e ∈ p.2, e.id ∉ st.1 := fun e he =>
        h1 e.id (by
          rw [List.map_append, List.mem_append]
          exact Or.inl (List.mem_map_of_mem _ he))
      obtain ⟨ha, hb⟩ := addLayerDedup_fresh p.2 st h1a hn1
      have h1' : ∀ x ∈ (flatEventsConcat rest enabled).map (fun e => e.id),
          x ∉ (addLayerDedup st p.2).1 := by
        intro x hx
        rw [hb x]
        push_neg
        refine ⟨h1 x ?_, fun hc => hdisj hc hx⟩
        rw [List.map_append, List.mem_append]
        exact Or.inr hx
      obtain ⟨hc, hd⟩ := ih (addLayerDedup st p.2) h1' hn2
      rw [List.foldl_cons, if_pos hp]
      constructor
      · rw [hc, ha, List.append_assoc]
      · intro x
        rw [hd x, hb x, List.map_append, List.mem_append, or_assoc]
    · rw [if_neg hp] at h1 h2 ⊢
      simp only [List.nil_append] at h1 h2 ⊢
      rw [List.foldl_cons, if_neg hp]
      exact ih st h1 h2

/-- **C9.** When no event id occurs twice across the enabled layers'
lists, the plain-concatenation `flatEvents` of
`components/Globe/DhruvaGlobe.tsx` and the seen-id-skipping `flatEvents`
of the `DhruvaGlobe` in `src/unnamed/part_003` compute the same list. -/
theorem flatEvents_refinement (entries : List (String × List OsintEvent))
    (enabled : List String)
    (h : ((flatEventsConcat entries enabled).map (fun e => e.id)).Nodup) :
    flatEventsDedup entries enabled = flatEventsConcat entries enabled := by
  unfold flatEventsDedup
  have := flatEventsDedup_fold enabled entries ([], [])
    (by intro x _ hx; simp at hx) h
  rw [this.1]
  rfl

/-- Concrete entries record for the C9 witness. -/
def sampleEntries : List (String × List OsintEvent) :=
  [("earthquake", [sampleEvent]), ("cyber", [sampleEvent2])]

/-- Witness for C9 at a concrete record with globally distinct ids. -/
theorem flatEvents_refinement_witness :
    flatEventsDedup sampleEntries ["earthquake", "cyber"]
      = flatEventsConcat sampleEntries ["earthquake", "cyber"] :=
  flatEvents_refinement sampleEntries ["earthquake", "cyber"] (by decide)

/-! ## Claim C10: `useWebSocket` lifecycle after cleanup

The mutable refs and handlers of the effect in `hooks/useWebSocket.ts`
(lines 21–96) as a transition system: `mounted` is `mountedRef.current`,
`timerSet` the pending reconnect timer, `wsRef` the socket (with its open
flag), `socketsCreated` counts `new WebSocket(...)` calls.  The events are
the entry points reachable after the effect has run: a `connect()` call,
the socket's `onopen`/`onclose` callbacks, and the reconnect timer firing. -/

structure HookState where
  mounted : Bool
  timerSet : Bool
  wsRef : Option Bool
  socketsCreated : Nat
  connectedFlag : Bool
deriving Repr

/-- `connect()` (lines 24–36): bail out when unmounted; bail out when an
OPEN socket exists; otherwise create a socket (initially not open). -/
def connectFn (s : HookState) : HookState :=
  if s.mounted = false then s
  else if s.wsRef = some true then s
  else { s with wsRef := some false, socketsCreated := s.socketsCreated + 1 }

/-- `ws.onopen` (lines 33–37): when unmounted, close the socket and
return; otherwise mark connected. -/
def onopenFn (s : HookState) : HookState :=
  if s.mounted = false then { s with wsRef := some false }
  else { s with connectedFlag := true, wsRef := some true }

/-- `ws.onclose` (lines 66–71): when unmounted, return without scheduling;
otherwise clear `connected` and schedule a reconnect timer. -/
def oncloseFn (s : HookState) : HookState :=
  if s.mounted = false then s
  else { s with connectedFlag := false, timerSet := true }

/-- The reconnect timer firing: the pending flag clears and `connect`
runs (line 70: `setTimeout(connect, RECONNECT_DELAY)`). -/
def timerFireFn (s : HookState) : HookState :=
  connectFn { s with timerSet := false }

/-- The effect cleanup (lines 80–95): clear the mounted flag, cancel any
pending timer, detach handlers and drop the socket ref. -/
def cleanupFn (s : HookState) : HookState :=
  { s with mounted := false, timerSet := false, wsRef := none }

/-- The entry points that can still fire after cleanup. -/
inductive HookEv where
  | connectCall
  | openEvt
  | closeEvt
  | timerEvt
deriving DecidableEq, Repr

def hookStep (s : HookState) (ev : HookEv) : HookState :=
  match ev with
  | .connectCall => connectFn s
  | .openEvt => onopenFn s
  | .closeEvt => oncloseFn s
  | .timerEvt => timerFireFn s

def hookRun (s : HookState) (evs : List HookEv) : HookState :=
  evs.foldl hookStep s

/-- Each post-cleanup entry point, run unmounted with no pending timer,
keeps the state unmounted, keeps the timer clear, and creates no socket. -/
theorem hookStep_unmounted (s : HookState) (ev : HookEv)
    (hm : s.mounted = false) (ht : s.timerSet = false) :
    (hookStep s ev).mounted = false ∧ (hookStep s ev).timerSet = false ∧
    (hookStep s ev).socketsCreated = s.socketsCreated := by
  cases ev <;>
    simp [hookStep, connectFn, onopenFn, oncloseFn, timerFireFn, hm, ht]

/-- **C10.** Once the effect cleanup has run, the hook never opens a new
WebSocket connection: along every subsequent sequence of entry-point
invocations (connect calls, socket open/close callbacks, timer firings)
the number of sockets ever created stays what it was at cleanup, and no
reconnect timer is ever scheduled. -/
theorem no_socket_after_cleanup (s : HookState) (evs : List HookEv) :
    (hookRun (cleanupFn s) evs).socketsCreated = s.socketsCreated ∧
    (hookRun (cleanupFn s) evs).timerSet = false ∧
    (hookRun (cleanupFn s) evs).mounted = false := by
  have key : ∀ (l : List HookEv) (st : HookState),
      st.mounted = false → st.timerSet = false →
      (hookRun st l).socketsCreated = st.socketsCreated ∧
      (hookRun st l).timerSet = false ∧
      (hookRun st l).mounted = false := by
    intro l
    induction l with
    | nil => intro st hm ht; exact ⟨rfl, ht, hm⟩
    | cons ev rest ih =>
      intro st hm ht
      obtain ⟨h1, h2, h3⟩ := hookStep_unmounted st ev hm ht
      have := ih (hookStep st ev) h1 h2
      refine ⟨?_, this.2.1, this.2.2⟩
      rw [hookRun, List.foldl_cons]
      rw [hookRun] at this
      rw [this.1, h3]
  have := key evs (cleanupFn s) (by simp [cleanupFn]) (by simp [cleanupFn])
  simpa [cleanupFn] using this

/-! ## Claim C4: normalizer id derivation and store idempotence

The backend fusion pipeline (Python, `dhruva/backend`) is not part of this
tree; the normalizer and the event store are modelled from the design
spec. -/

/-- Modelled from the spec: a raw record as the Normalizer consumes it
(§4.1) — the backend collector output is not in `src/`.  `source` and
`naturalKey` are the fields the stable id is derived from (§3: "derived
from source + natural key, not random"). -/
structure RawRecord where
  source : String
  naturalKey : String
  type : String
  latitude : Rat
  longitude : Rat
  severity : Nat
  timestamp : String
  title : String
  description : String
deriving DecidableEq, Repr

/-- Modelled from the spec: the stable id, a deterministic function of
source and natural key (§3). -/
def deriveId (r : RawRecord) : String :=
  r.source ++ ":" ++ r.naturalKey

/-- Modelled from the spec: `normalize(rawRecord) -> Event | rejected`
(§4.1, backend not in `src/`): coordinate validation rejects out-of-range
positions; severity is clamped into 1–5; the id is the derived one. -/
def normalize (r : RawRecord) : Option OsintEvent :=
  if -90 ≤ r.latitude ∧ r.latitude ≤ 90 ∧ -180 ≤ r.longitude ∧ r.longitude ≤ 180
  then some
    { id := deriveId r, type := r.type
      latitude := r.latitude, longitude := r.longitude
      severity := min 5 (max 1 r.severity)
      timestamp := r.timestamp, source := r.source
      title := r.title, description := r.description, metadata := [] }
  else none

/-- Modelled from the spec: committing one normalized event into a layer's
collection (§3 lifecycle, backend not in `src/`): an event with the same
derived id *replaces* the prior one, otherwise the event is appended. -/
def ingestEvent (store : List OsintEvent) (e : OsintEvent) : List OsintEvent :=
  if store.any (fun x => x.id == e.id)
  then store.map (fun x => if x.id == e.id then e else x)
  else store ++ [e]

/-- Replacing by id does not change the id multiset of the store. -/
theorem ingestEvent_ids_of_mem (store : List OsintEvent) (e : OsintEvent)
    (h : store.any (fun x => x.id == e.id) = true) :
    (ingestEvent store e).map (fun x => x.id) = store.map (fun x => x.id) := by
  unfold ingestEvent
  rw [if_pos h, List.map_map]
  apply List.map_congr_left
  intro x _
  simp only [Function.comp_apply]
  by_cases hx : x.id = e.id
  · simp [hx]
  · simp [hx]

/-- After one ingestion the store holds exactly one event with the
ingested id, and the id uniqueness invariant is preserved. -/
theorem ingestEvent_count (store : List OsintEvent) (e : OsintEvent)
    (hnd : (store.map (fun x => x.id)).Nodup) :
    ((ingestEvent store e).filter (fun x => x.id == e.id)).length = 1 ∧
    ((ingestEvent store e).map (fun x => x.id)).Nodup := by
  by_cases h : store.any (fun x => x.id == e.id) = true
  · have hmem : e.id ∈ store.map (fun x => x.id) := by
      rcases List.any_eq_true.mp h with ⟨x, hx, hbeq⟩
      exact List.mem_map.mpr ⟨x, hx, (beq_iff_eq.mp hbeq)⟩
    constructor
    · rw [← List.countP_eq_length_filter]
      unfold ingestEvent
      rw [if_pos h, List.countP_map]
      have hcg : store.countP
            ((fun x => x.id == e.id) ∘ fun x => if x.id == e.id then e else x)
          = store.countP (fun x => x.id == e.id) := by
        apply List.countP_congr
        intro x _
        simp only [Function.comp_apply]
        by_cases hx : x.id = e.id
        · simp [hx]
        · simp [hx]
      rw [hcg]
      have : store.countP (fun x => x.id == e.id)
          = (store.map (fun x => x.id)).count e.id := by
        rw [List.count_eq_countP, List.countP_map]
        rfl
      rw [this]
      exact List.count_eq_one_of_mem hnd hmem
    · rw [ingestEvent_ids_of_mem store e h]
      exact hnd
  · have hnotmem : e.id ∉ store.map (fun x => x.id) := by
      intro hc
      rcases List.mem_map.mp hc with ⟨x, hx, heq⟩
      exact h (List.any_eq_true.mpr ⟨x, hx, beq_iff_eq.mpr heq⟩)
    have hform : ingestEvent store e = store ++ [e] := by
      unfold ingestEvent
      rw [if_neg h]
    constructor
    · rw [hform, List.filter_append]
      have h0 : store.filter (fun x => x.id == e.id) = [] := by
        rw [List.filter_eq_nil_iff]
        intro x hx
        intro hbeq
        exact hnotmem (List.mem_map.mpr ⟨x, hx, beq_iff_eq.mp hbeq⟩)
      rw [h0]
      simp
    · rw [hform, List.map_append, List.nodup_append]
      refine ⟨hnd, by simp, ?_⟩
      intro a ha hb
      simp only [List.map_cons, List.map_nil, List.mem_singleton] at hb
      exact hnotmem (hb ▸ ha)

/-- Replacement by id does not change the store's length. -/
theorem ingestEvent_length_of_mem (store : List OsintEvent) (e : OsintEvent)
    (h : store.any (fun x => x.id == e.id) = true) :
    (ingestEvent store e).length = store.length := by
  unfold ingestEvent
  rw [if_pos h, List.length_map]

/-- The ingested id is present after ingestion. -/
theorem ingestEvent_mem (store : List OsintEvent) (e : OsintEvent) :
    (ingestEvent store e).any (fun x => x.id == e.id) = true := by
  unfold ingestEvent
  by_cases h : store.any (fun x => x.id == e.id) = true
  · rw [if_pos h]
    rcases List.any_eq_true.mp h with ⟨x, hx, hbeq⟩
    apply List.any_eq_true.mpr
    refine ⟨e, List.mem_map.mpr ⟨x, hx, ?_⟩, by simp⟩
    simp [beq_iff_eq.mp hbeq]
  · rw [if_neg h]
    apply List.any_eq_true.mpr
    exact ⟨e, by simp, by simp⟩

/-- **C4.** Ingesting the normalization of the same raw record twice into
a store with unique ids yields exactly one stored event with the id
derived from that record; the second, byte-identical ingestion does not
grow the store (no second Event is created), and id uniqueness is kept. -/
theorem ingest_idempotent (store : List OsintEvent) (r : RawRecord)
    (e : OsintEvent) (hn : normalize r = some e)
    (hnd : (store.map (fun x => x.id)).Nodup) :
    ((ingestEvent (ingestEvent store e) e).filter
        (fun x => x.id == deriveId r)).length = 1 ∧
    (ingestEvent (ingestEvent store e) e).length
      = (ingestEvent store e).length ∧
    ((ingestEvent (ingestEvent store e) e).map (fun x => x.id)).Nodup := by
  have hid : e.id = deriveId r := by
    unfold normalize at hn
    split at hn
    · cases hn
      rfl
    · cases hn
  obtain ⟨h1, h2⟩ := ingestEvent_count store e hnd
  obtain ⟨h3, h4⟩ := ingestEvent_count (ingestEvent store e) e h2
  have hpresent := ingestEvent_mem store e
  have hlen := ingestEvent_length_of_mem (ingestEvent store e) e hpresent
  exact ⟨hid ▸ h3, hlen, h4⟩

/-- A concrete raw record for the C4 witness. -/
def sampleRaw : RawRecord :=
  { source := "USGS", naturalKey := "us7000abcd", type := "earthquake"
    latitude := mkRat 345 10, longitude := mkRat (-1178) 10
    severity := 3, timestamp := "2024-01-02T00:00:00Z"
    title := "M 5.1", description := "sample" }

/-- The normalization of `sampleRaw`. -/
def sampleRawEvent : OsintEvent :=
  { id := "USGS:us7000abcd", type := "earthquake"
    latitude := mkRat 345 10, longitude := mkRat (-1178) 10
    severity := 3, timestamp := "2024-01-02T00:00:00Z", source := "USGS"
    title := "M 5.1", description := "sample", metadata := [] }

/-- Witness for C4: double ingestion of `sampleRaw` from the empty store
leaves exactly one event with the derived id. -/
theorem ingest_idempotent_witness :
    ((ingestEvent (ingestEvent [] sampleRawEvent) sampleRawEvent).filter
        (fun x => x.id == deriveId sampleRaw)).length = 1 ∧
    (ingestEvent (ingestEvent [] sampleRawEvent) sampleRawEvent).length
      = (ingestEvent [] sampleRawEvent).length ∧
    ((ingestEvent (ingestEvent [] sampleRawEvent) sampleRawEvent).map
        (fun x => x.id)).Nodup :=
  ingest_idempotent [] sampleRaw sampleRawEvent (by decide) (by decide)

/-! ## Claims C5 and C6: spatial index, hotspots, convergence

The backend Spatial Index / Hotspot Calculator / Convergence Detector
(Python) are not in this tree; they are modelled from the design spec
(§4.3, §4.4): a fixed 1°×1° grid with cell key `(floor lat, floor lon)`,
exact counts over the currently retained events, recomputed wholesale. -/

/-- Modelled from the spec: the 1°×1° grid cell key
`(floor(lat), floor(long))` (§4.3). -/
def cellKey (e : OsintEvent) : Int × Int :=
  (e.latitude.floor, e.longitude.floor)

/-- The occupied cells (first-occurrence order, each once). -/
def cells (evs : List OsintEvent) : List (Int × Int) :=
  (evs.map cellKey).dedup

/-- Modelled from the spec: the exact per-cell count over the retained
events (§4.3, "counts are exact, not approximate"). -/
def cellCount (evs : List OsintEvent) (c : Int × Int) : Nat :=
  (evs.filter (fun e => decide (cellKey e = c))).length

/-- Modelled from the spec: the hotspot set, recomputed wholesale — the
cells whose count reaches the configurable threshold (§4.3, design
default 5). -/
def hotspotCells (th : Nat) (evs : List OsintEvent) : List (Int × Int) :=
  (cells evs).filter (fun c => decide (th ≤ cellCount evs c))

/-- The sum of the hotspot cells' counts. -/
def sumHotspotCounts (th : Nat) (evs : List OsintEvent) : Nat :=
  ((hotspotCells th evs).map (cellCount evs)).sum

/-- An occupied cell is exactly one with a positive count. -/
theorem mem_cells_of_count_pos (evs : List OsintEvent) (c : Int × Int)
    (h : 0 < cellCount evs c) : c ∈ cells evs := by
  unfold cellCount at h
  obtain ⟨e, he⟩ := List.exists_mem_of_length_pos h
  have h1 := List.mem_filter.mp he
  have h2 : cellKey e = c := of_decide_eq_true h1.2
  exact List.mem_dedup.mpr (List.mem_map.mpr ⟨e, h1.1, h2⟩)

/-- **C5, counterexample.** With one retained event and the default
threshold 5 there is no hotspot cell, so the sum of all hotspot cell
counts is 0 while the number of retained events is 1: the claimed
equality "sum of hotspot cell counts = number of retained events" fails. -/
theorem hotspot_sum_cex :
    ¬ sumHotspotCounts 5 [sampleEvent] = ([sampleEvent] : List OsintEvent).length := by
  decide

/-- **C5, amended.** For a positive threshold, a cell is a hotspot exactly
when its exact count reaches the threshold (so a cell with exactly the
threshold count is included and a cell with one fewer event is not), and
the sum of the counts of *all occupied grid cells* — not of the hotspot
cells alone — equals the number of retained events. -/
theorem hotspot_threshold_amended (evs : List OsintEvent) (th : Nat)
    (c : Int × Int) (hth : 0 < th) :
    (c ∈ hotspotCells th evs ↔ th ≤ cellCount evs c) ∧
    (cellCount evs c = th → c ∈ hotspotCells th evs) ∧
    (cellCount evs c = th - 1 → c ∉ hotspotCells th evs) ∧
    ((cells evs).map (cellCount evs)).sum = evs.length := by
  have hiff : c ∈ hotspotCells th evs ↔ th ≤ cellCount evs c := by
    unfold hotspotCells
    rw [List.mem_filter]
    constructor
    · intro h
      exact of_decide_eq_true h.2
    · intro h
      refine ⟨mem_cells_of_count_pos evs c (lt_of_lt_of_le hth h), decide_eq_true h⟩
  refine ⟨hiff, ?_, ?_, ?_⟩
  · intro h
    exact hiff.mpr (le_of_eq h.symm)
  · intro h hc
    have := hiff.mp hc
    omega
  · have := sum_filter_lengths cellKey evs
    unfold cells cellCount
    exact this

/-- Six earthquake events in grid cell (34, -118), per the spec's §8
example scenario, for the C5 witness. -/
def quakeAt (n : Nat) : OsintEvent :=
  { id := "usgs:q" ++ toString n, type := "earthquake"
    latitude := mkRat 345 10, longitude := mkRat (-1178) 10
    severity := 3, timestamp := "2024-01-03T00:00:00Z", source := "USGS"
    title := "M 4.0", description := "cluster", metadata := [] }

/-- The §8 example batch: 6 earthquake events in cell (34, -118). -/
def quakeBatch : List OsintEvent :=
  [quakeAt 1, quakeAt 2, quakeAt 3, quakeAt 4, quakeAt 5, quakeAt 6]

/-- Witness for the amended C5 at the §8 example: cell (34, -118) with
count 6 against threshold 5. -/
theorem hotspot_threshold_amended_witness :
    (((34 : Int), (-118 : Int)) ∈ hotspotCells 5 quakeBatch
      ↔ 5 ≤ cellCount quakeBatch (34, -118)) ∧
    (cellCount quakeBatch (34, -118) = 5
      → ((34 : Int), (-118 : Int)) ∈ hotspotCells 5 quakeBatch) ∧
    (cellCount quakeBatch (34, -118) = 5 - 1
      → ((34 : Int), (-118 : Int)) ∉ hotspotCells 5 quakeBatch) ∧
    ((cells quakeBatch).map (cellCount quakeBatch)).sum = quakeBatch.length :=
  hotspot_threshold_amended quakeBatch 5 (34, -118) (by decide)

/-- Modelled from the spec: the distinct event types present in a cell
among the retained (windowed) events (§4.4). -/
def typesInCell (evs : List OsintEvent) (c : Int × Int) : List String :=
  ((evs.filter (fun e => decide (cellKey e = c))).map (fun e => e.type)).dedup

/-- Modelled from the spec: the Convergence Detector's alert set,
recomputed wholesale each cycle — one alert per cell whose distinct-type
count reaches 3 (§4.4); an alert for a cell is identified by the cell (its
id being derived from cell key + contributing type set), so the same
condition yields the same single alert rather than a duplicate. -/
def convergenceCells (evs : List OsintEvent) : List (Int × Int) :=
  (cells evs).filter (fun c => decide (3 ≤ (typesInCell evs c).length))

/-- The number of alerts the detector emits for one cell. -/
def alertCount (evs : List OsintEvent) (c : Int × Int) : Nat :=
  ((convergenceCells evs).filter (fun x => decide (x = c))).length

/-- In a duplicate-free list, the number of occurrences of a member is 1. -/
theorem length_filter_eq_one_of_nodup {κ : Type} [DecidableEq κ]
    (l : List κ) (c : κ) (hnd : l.Nodup) (h : c ∈ l) :
    (l.filter (fun x => decide (x = c))).length = 1 := by
  have h1 : l.count c = 1 := List.count_eq_one_of_mem hnd h
  rw [List.count_eq_countP, List.countP_eq_length_filter] at h1
  exact h1

/-- A non-member occurs 0 times. -/
theorem length_filter_eq_zero_of_not_mem {κ : Type} [DecidableEq κ]
    (l : List κ) (c : κ) (h : c ∉ l) :
    (l.filter (fun x => decide (x = c))).length = 0 := by
  have h1 : l.count c = 0 := List.count_eq_zero.mpr h
  rw [List.count_eq_countP, List.countP_eq_length_filter] at h1
  exact h1

/-- **C6.** For every retained-event set and cell, the number of
convergence alerts for that cell is 1 exactly when at least 3 distinct
types are present in it, else 0: a cell with only 2 distinct types yields
no alert, a third distinct type yields exactly one, and — the alert set
being recomputed wholesale from the current events — the alert is gone on
a subsequent cycle whose events no longer satisfy the condition. -/
theorem convergence_trigger (evs : List OsintEvent) (c : Int × Int) :
    alertCount evs c = if 3 ≤ (typesInCell evs c).length then 1 else 0 := by
  have hnd : (convergenceCells evs).Nodup :=
    List.Nodup.filter _ (List.nodup_dedup _)
  by_cases h : 3 ≤ (typesInCell evs c).length
  · rw [if_pos h]
    have hcellpos : 0 < cellCount evs c := by
      unfold cellCount
      by_contra hc
      push_neg at hc
      have hempty : evs.filter (fun e => decide (cellKey e = c)) = [] :=
        List.eq_nil_of_length_eq_zero (Nat.le_zero.mp hc)
      unfold typesInCell at h
      rw [hempty] at h
      simp at h
    have hmem : c ∈ convergenceCells evs :=
      List.mem_filter.mpr
        ⟨mem_cells_of_count_pos evs c hcellpos, decide_eq_true h⟩
    exact length_filter_eq_one_of_nodup (convergenceCells evs) c hnd hmem
  · rw [if_neg h]
    apply length_filter_eq_zero_of_not_mem
    intro hc
    exact h (of_decide_eq_true (List.mem_filter.mp hc).2)

/-! ## Claim C7: risk score monotonicity

The backend Risk Calculator (Python) is not in this tree; it is modelled
from the design spec (§4.5): score = weighted sum over the layers of
`count × severity`, normalized into a level via fixed breakpoints. -/

/-- The fixed enumeration of layers, from `types/events.ts`. -/
def allTypes : List String :=
  ["earthquake", "fire", "conflict", "aircraft", "marine", "cyber",
   "outage", "economic", "military", "military_aircraft", "ucdp",
   "acled", "naval", "intel_hotspot"]

/-- Modelled from the spec: the global risk score (§4.5, backend not in
`src/`): a layer's events contribute their severities, summed and
weighted by the per-type configuration weight — the weighted sum of
`count × severity` over each layer. -/
def riskScore (w : String → Nat) (s : String → List Nat) : Nat :=
  (allTypes.map (fun t => w t * (s t).sum)).sum

/-- Modelled from the spec: normalization of the score into a level via
fixed breakpoints (§4.5): level = 1 + number of breakpoints reached. -/
def riskLevelOf (bs : List Nat) (score : Nat) : Nat :=
  1 + bs.countP (fun b => decide (b ≤ score))

/-- Breakpoint counting is monotone in the score. -/
theorem riskLevelOf_mono (bs : List Nat) (x y : Nat) (h : x ≤ y) :
    riskLevelOf bs x ≤ riskLevelOf bs y := by
  unfold riskLevelOf
  apply Nat.add_le_add_left
  apply List.countP_mono_left
  intro b _ hb
  exact decide_eq_true (le_trans (of_decide_eq_true hb) h)

/-- The score is monotone in the per-layer severity sums. -/
theorem riskScore_mono (w : String → Nat) (s1 s2 : String → List Nat)
    (h : ∀ t, (s1 t).sum ≤ (s2 t).sum) :
    riskScore w s1 ≤ riskScore w s2 := by
  unfold riskScore
  apply List.sum_le_sum
  intro t _
  exact Nat.mul_le_mul_left (w t) (h t)

/-- **C7.** For a fixed weight configuration and fixed breakpoints, if the
second store state differs from the first only by one more event in some
layer, or only by one event's severity being raised, the computed global
risk level of the second state is at least that of the first. -/
theorem risk_monotone (w : String → Nat) (bs : List Nat)
    (s1 s2 : String → List Nat)
    (h : (∃ t sev, s2 t = sev :: s1 t ∧ ∀ u, u ≠ t → s2 u = s1 u) ∨
         (∃ t pre a b post, a ≤ b ∧ s1 t = pre ++ a :: post ∧
           s2 t = pre ++ b :: post ∧ ∀ u, u ≠ t → s2 u = s1 u)) :
    riskLevelOf bs (riskScore w s1) ≤ riskLevelOf bs (riskScore w s2) := by
  apply riskLevelOf_mono
  apply riskScore_mono
  rcases h with ⟨t, sev, ht, hother⟩ | ⟨t, pre, a, b, post, hab, h1, h2, hother⟩
  · intro u
    by_cases hu : u = t
    · subst hu
      rw [ht]
      simp [List.sum_cons]
    · rw [hother u hu]
  · intro u
    by_cases hu : u = t
    · subst hu
      rw [h1, h2]
      simp only [List.sum_append, List.sum_cons]
      omega
    · rw [hother u hu]

/-- First concrete store for the C7 witness: one severity-3 cyber event. -/
def riskStore1 : String → List Nat :=
  fun t => if t = "cyber" then [3] else []

/-- Second concrete store: one more cyber event of severity 5. -/
def riskStore2 : String → List Nat :=
  fun t => if t = "cyber" then [5, 3] else []

/-- Witness for C7: adding a severity-5 cyber event cannot lower the
level, at unit weights and breakpoints 1/5/10/20. -/
theorem risk_monotone_witness :
    riskLevelOf [1, 5, 10, 20] (riskScore (fun _ => 1) riskStore1)
      ≤ riskLevelOf [1, 5, 10, 20] (riskScore (fun _ => 1) riskStore2) :=
  risk_monotone (fun _ => 1) [1, 5, 10, 20] riskStore1 riskStore2
    (Or.inl ⟨"cyber", 5, rfl, fun u hu => by simp [riskStore1, riskStore2, hu]⟩)

/-! ## Claim C8: broadcast isolation

The backend Distribution Manager (Python) is not in this tree; it is
modelled from the design spec (§4.6, §5): each observer connection has an
independent delivery path with a bounded outbound queue; a broadcast goes
to every live observer, and an observer whose queue is full at a
broadcast is dropped instead of back-pressuring the shared pipeline.
Observers are indexed by `Nat`; a run interleaves batch commits
(broadcast to all) with per-observer drain steps; an observer that never
drains simply has no drain step in the run. -/

/-- One observer's delivery path: its bounded outbound queue, the
messages it has already taken off that queue, and a dropped flag. -/
structure Observer where
  queue : List WebSocketMessage
  delivered : List WebSocketMessage
  dropped : Bool
deriving Repr

/-- Modelled from the spec: enqueue one broadcast message for one
observer (§5): a dropped connection is skipped; a full queue drops the
connection instead of blocking; otherwise the message is appended. -/
def deliverTo (bound : Nat) (m : WebSocketMessage) (o : Observer) : Observer :=
  if o.dropped then o
  else if bound ≤ o.queue.length then { o with dropped := true }
  else { o with queue := o.queue ++ [m] }

/-- An observer servicing its own queue: take the head, if any. -/
def drainOne (o : Observer) : Observer :=
  if o.dropped then o
  else
    match o.queue with
    | [] => o
    | m :: rest =>
        { queue := rest, delivered := o.delivered ++ [m], dropped := o.dropped }

/-- A step of the distribution layer: a batch commit broadcast to every
observer, or observer `i` draining one message. -/
inductive DistEv where
  | commit (m : WebSocketMessage)
  | drain (i : Nat)

def distStep (bound : Nat) (os : Nat → Observer) (ev : DistEv) :
    Nat → Observer :=
  match ev with
  | .commit m => fun k => deliverTo bound m (os k)
  | .drain i => fun k => if k = i then drainOne (os k) else os k

def distRun (bound : Nat) (os : Nat → Observer) (evs : List DistEv) :
    Nat → Observer :=
  evs.foldl (distStep bound) os

/-- The batch commits of a run, in commit order. -/
def commitsOf (evs : List DistEv) : List WebSocketMessage :=
  evs.filterMap (fun ev =>
    match ev with
    | .commit m => some m
    | .drain _ => none)

/-- A dropped observer is never touched again. -/
theorem distRun_dropped_sticky (bound : Nat) (evs : List DistEv) :
    ∀ (os : Nat → Observer) (i : Nat), (os i).dropped = true →
    distRun bound os evs i = os i := by
  induction evs with
  | nil => intro os i _; rfl
  | cons ev rest ih =>
    intro os i h
    have hstep : distStep bound os ev i = os i := by
      cases ev with
      | commit m => simp [distStep, deliverTo, h]
      | drain j =>
        by_cases hj : i = j
        · subst hj
          simp [distStep, drainOne, h]
        · simp [distStep, hj]
    calc distRun bound os (ev :: rest) i
        = distRun bound (distStep bound os ev) rest i := rfl
      _ = distStep bound os ev i := ih (distStep bound os ev) i (by rw [hstep]; exact h)
      _ = os i := hstep

/-- An observer's run outcome depends only on its own starting state:
another observer's stalled queue or dropped connection cannot change it. -/
theorem distRun_frame (bound : Nat) (evs : List DistEv) :
    ∀ (os os' : Nat → Observer) (i : Nat), os i = os' i →
    distRun bound os evs i = distRun bound os' evs i := by
  induction evs with
  | nil => intro os os' i h; exact h
  | cons ev rest ih =>
    intro os os' i h
    apply ih
    cases ev with
    | commit m => simp only [distStep]; rw [h]
    | drain j =>
      by_cases hj : i = j
      · subst hj
        simp only [distStep, if_pos rfl]
        rw [h]
      · simp only [distStep, if_neg hj]
        exact h

/-- Delivery completeness: an observer that ends the run undropped has
seen exactly its initial backlog followed by every committed message, in
commit order, split between what it already drained and what still sits
in its queue. -/
theorem distRun_delivers (bound : Nat) (evs : List DistEv) :
    ∀ (os : Nat → Observer) (i : Nat),
    (distRun bound os evs i).dropped = false →
    (distRun bound os evs i).delivered ++ (distRun bound os evs i).queue
      = (os i).delivered ++ (os i).queue ++ commitsOf evs := by
  induction evs with
  | nil =>
    intro os i _
    simp [distRun, commitsOf]
  | cons ev rest ih =>
    intro os i hnd
    have hrun : distRun bound os (ev :: rest) i
        = distRun bound (distStep bound os ev) rest i := rfl
    rw [hrun] at hnd ⊢
    have hstepnd : (distStep bound os ev i).dropped = false := by
      cases hx : (distStep bound os ev i).dropped
      · rfl
      · exfalso
        rw [distRun_dropped_sticky bound rest (distStep bound os ev) i hx,
          hx] at hnd
        simp at hnd
    have hIH := ih (distStep bound os ev) i hnd
    rw [hIH]
    cases ev with
    | commit m =>
      have hosnd : (os i).dropped = false := by
        cases hx : (os i).dropped
        · rfl
        · exfalso
          have heq : distStep bound os (DistEv.commit m) i = os i := by
            simp [distStep, deliverTo, hx]
          rw [heq, hx] at hstepnd
          simp at hstepnd
      have hroom : ¬ bound ≤ (os i).queue.length := by
        intro hc
        simp [distStep, deliverTo, hosnd, hc] at hstepnd
      have : distStep bound os (DistEv.commit m) i
          = { os i with queue := (os i).queue ++ [m] } := by
        simp [distStep, deliverTo, hosnd, hroom]
      rw [this]
      simp [commitsOf, List.filterMap_cons]
    | drain j =>
      by_cases hj : i = j
      · subst hj
        have hosnd : (os i).dropped = false := by
          cases hx : (os i).dropped
          · rfl
          · exfalso
            have heq : distStep bound os (DistEv.drain i) i = os i := by
              simp [distStep, drainOne, hx]
            rw [heq, hx] at hstepnd
            simp at hstepnd
        have hc : commitsOf (DistEv.drain i :: rest) = commitsOf rest := by
          simp [commitsOf, List.filterMap_cons]
        rw [hc]
        cases hq : (os i).queue with
        | nil =>
          have : distStep bound os (DistEv.drain i) i = os i := by
            simp [distStep, drainOne, hosnd, hq]
          rw [this, hq]
        | cons m q =>
          have : distStep bound os (DistEv.drain i) i
              = { queue := q, delivered := (os i).delivered ++ [m]
                  dropped := (os i).dropped } := by
            simp [distStep, drainOne, hosnd, hq]
          rw [this]
          simp [hq]
      · have : distStep bound os (DistEv.drain j) i = os i := by
          simp [distStep, hj]
        rw [this]
        have hc : commitsOf (DistEv.drain j :: rest) = commitsOf rest := by
          simp [commitsOf, List.filterMap_cons]
        rw [hc]

/-- A stalled observer — full queue, never draining — is dropped at the
first commit of the run. -/
theorem distRun_drops_stalled (bound : Nat) (evs : List DistEv) :
    ∀ (os : Nat → Observer) (j : Nat),
    bound ≤ (os j).queue.length →
    (∀ i, DistEv.drain i ∈ evs → i ≠ j) →
    (∃ m, DistEv.commit m ∈ evs) →
    (distRun bound os evs j).dropped = true := by
  induction evs with
  | nil =>
    intro os j _ _ hex
    rcases hex with ⟨m, hm⟩
    cases hm
  | cons ev rest ih =>
    intro os j hfull hnodrain hex
    cases ev with
    | commit m =>
      by_cases hd : (os j).dropped = true
      · have hstep : distStep bound os (DistEv.commit m) j = os j := by
          simp [distStep, deliverTo, hd]
        have : distRun bound (distStep bound os (DistEv.commit m)) rest j
            = distStep bound os (DistEv.commit m) j :=
          distRun_dropped_sticky bound rest _ j (by rw [hstep]; exact hd)
        calc (distRun bound os (DistEv.commit m :: rest) j).dropped
            = (distStep bound os (DistEv.commit m) j).dropped := by rw [← this]; rfl
          _ = true := by rw [hstep]; exact hd
      · rw [Bool.not_eq_true] at hd
        have hstep : distStep bound os (DistEv.commit m) j
            = { os j with dropped := true } := by
          simp [distStep, deliverTo, hd, hfull]
        have hsticky : distRun bound (distStep bound os (DistEv.commit m)) rest j
            = distStep bound os (DistEv.commit m) j :=
          distRun_dropped_sticky bound rest _ j (by rw [hstep])
        calc (distRun bound os (DistEv.commit m :: rest) j).dropped
            = (distStep bound os (DistEv.commit m) j).dropped := by rw [← hsticky]; rfl
          _ = true := by rw [hstep]
    | drain i =>
      have hne : i ≠ j := hnodrain i (List.mem_cons_self _ _)
      have hji : ¬ j = i := fun hx => hne hx.symm
      have hstep : distStep bound os (DistEv.drain i) j = os j := by
        simp [distStep, hji]
      have hex' : ∃ m, DistEv.commit m ∈ rest := by
        rcases hex with ⟨m, hm⟩
        rcases List.mem_cons.mp hm with h | h
        · cases h
        · exact ⟨m, h⟩
      have := ih (distStep bound os (DistEv.drain i)) j
        (by rw [hstep]; exact hfull)
        (fun k hk => hnodrain k (List.mem_cons_of_mem _ hk)) hex'
      exact this

/-- **C8.** Under the spec's delivery model, a stalled observer cannot
affect the others: (1) an observer starting empty that ends a run
undropped has received — drained plus still queued — exactly the
committed `event_batch` messages in commit order; (2) its outcome is
unchanged under any alteration of the other observers' states (no
blocking or delay through shared state); (3) an observer with a full
queue that never drains is dropped at the first commit rather than
back-pressuring the run. -/
theorem broadcast_isolation (bound : Nat) (os : Nat → Observer)
    (evs : List DistEv) (i j : Nat)
    (hstart : os i = { queue := [], delivered := [], dropped := false })
    (hnd : (distRun bound os evs i).dropped = false)
    (hfull : bound ≤ (os j).queue.length)
    (hnodrain : ∀ k, DistEv.drain k ∈ evs → k ≠ j)
    (hcommit : ∃ m, DistEv.commit m ∈ evs) :
    (distRun bound os evs i).delivered ++ (distRun bound os evs i).queue
      = commitsOf evs ∧
    (∀ os' : Nat → Observer, os' i = os i →
      distRun bound os' evs i = distRun bound os evs i) ∧
    (distRun bound os evs j).dropped = true := by
  refine ⟨?_, ?_, ?_⟩
  · have := distRun_delivers bound evs os i hnd
    rw [this, hstart]
    simp
  · intro os' h
    exact distRun_frame bound evs os' os i h
  · exact distRun_drops_stalled bound evs os j hfull hnodrain hcommit

/-- Three observers for the C8 witness: observer 0 healthy and empty,
observer 1 stalled with a full queue (bound 2), observer 2 healthy. -/
def sampleObservers : Nat → Observer :=
  fun k =>
    if k = 1 then { queue := [initMsg, batchMsg], delivered := [], dropped := false }
    else { queue := [], delivered := [], dropped := false }

/-- A run for the C8 witness: two commits, observer 2 draining between
them, observer 1 never draining. -/
def sampleRunEvs : List DistEv :=
  [DistEv.commit batchMsg, DistEv.drain 2, DistEv.commit initMsg]

/-- Witness for C8 at bound 2: observer 0 ends undropped and holds both
commits in order, its outcome ignores the others, and the stalled
observer 1 is dropped. -/
theorem broadcast_isolation_witness :
    ((distRun 2 sampleObservers sampleRunEvs 0).delivered
        ++ (distRun 2 sampleObservers sampleRunEvs 0).queue
      = commitsOf sampleRunEvs) ∧
    (∀ os' : Nat → Observer, os' 0 = sampleObservers 0 →
      distRun 2 os' sampleRunEvs 0 = distRun 2 sampleObservers sampleRunEvs 0) ∧
    (distRun 2 sampleObservers sampleRunEvs 1).dropped = true :=
  broadcast_isolation 2 sampleObservers sampleRunEvs 0 1
    (by simp [sampleObservers])
    (by decide)
    (by decide)
    (by
      intro k hk
      simp [sampleRunEvs] at hk
      omega)
    ⟨batchMsg, by simp [sampleRunEvs]⟩

end Dhruva
